import Mathlib

/-!
# The AES-SHA-256 cipher of olm (`src/cipher.cpp`) and the SAS calling contract

A shallow embedding of `src/src/cipher.cpp`, and a model of the SAS functions
that `src/include/olm/sas.h` declares (their bodies are not among the sources;
they follow the spec and the comments of the header).

* Bytes (`std::uint8_t`) are natural numbers; `size_t` values are natural
  numbers and every `size_t` subtraction or pointer addition of the source is
  written with an explicit reduction modulo `2 ^ 64` (`size_add`, `size_sub`).
* The caller's buffers (`plaintext`, `ciphertext`, `output`, `input`) are
  regions of one flat byte memory, addressed by a pointer and a length exactly
  as in the C signatures, so that the aliasing between `ciphertext` and
  `output` that the source relies on is kept.  The read-only `key` and
  `kdf_info` buffers are passed as byte lists (their length is the list's).
* An access outside the memory is undefined behaviour in C; the embedding
  stops there with `Outcome.fault`.
* The cryptographic primitives (`olm/crypto.hh`) are not part of the sources
  under study; they are the fields of `Primitives`.
* Every call of a primitive is appended to a ghost list of `Call`s, and the
  local `keys` record at the moment of `return` is part of the result, so that
  "is not invoked" and "is zero at return" can be stated.
-/

/-- A `std::uint8_t`. -/
abbrev Byte := Nat

/-- The number of values of a 64-bit `size_t`. -/
def SIZE_T_RANGE : Nat := 18446744073709551616

/-- The value of `std::size_t(-1)`. -/
def SIZE_T_MINUS_ONE : Nat := 18446744073709551615

/-- Addition on `size_t` (also used for pointer plus offset): modulo `2 ^ 64`. -/
def size_add (a b : Nat) : Nat := (a + b) % SIZE_T_RANGE

/-- Subtraction on `size_t` operands (both below `2 ^ 64`): the difference
modulo `2 ^ 64`, that is `a - b` when `b ≤ a` and `a + 2 ^ 64 - b` when the
subtraction wraps around (`size_sub_eq_mod`). -/
def size_sub (a b : Nat) : Nat :=
  if b ≤ a then a - b else a + (SIZE_T_RANGE - b)

/-- Modelled from the spec: the constant `olm::KEY_LENGTH` of `olm/crypto.h` is
missing from the sources; spec: "symmetric key 32". -/
def KEY_LENGTH : Nat := 32

/-- Modelled from the spec: the constant `olm::IV_LENGTH` of `olm/crypto.h` is
missing from the sources; spec: "IV 16". -/
def IV_LENGTH : Nat := 16

/-- Modelled from the spec: the constant `SHA256_OUTPUT_LENGTH` of `olm/crypto.h`
is missing from the sources; the spec has "HMAC-SHA256", whose output is 256
bits, "truncate[d] to the first 8 bytes". -/
def SHA256_OUTPUT_LENGTH : Nat := 32

/-- The constant `MAC_LENGTH` of `cipher.cpp`, line 48. -/
def MAC_LENGTH : Nat := 8

/-- The flat byte memory the caller's pointers point into. -/
abbrev Mem := List Byte

/-- Reads `n` bytes at address `p`; `none` when the range leaves the memory. -/
def readBytes (m : Mem) (p n : Nat) : Option (List Byte) :=
  if p + n ≤ m.length then some ((m.drop p).take n) else none

/-- Writes `bs` at address `p`; `none` when the range leaves the memory. -/
def writeBytes (m : Mem) (p : Nat) (bs : List Byte) : Option Mem :=
  if p + bs.length ≤ m.length then
    some (m.take p ++ bs ++ m.drop (p + bs.length))
  else none

/-- The primitives of `olm/crypto.hh` that `cipher.cpp` calls, with the sizes
of what they write. -/
structure Primitives where
  /-- The call `_olm_crypto_hkdf_sha256(input, salt, info, output_length)`: the bytes
  written to the output. -/
  _olm_crypto_hkdf_sha256 : List Byte → List Byte → List Byte → Nat → List Byte
  hkdf_length : ∀ i s f n, (_olm_crypto_hkdf_sha256 i s f n).length = n
  /-- The call `_olm_crypto_hmac_sha256(key, input)`: the `SHA256_OUTPUT_LENGTH` bytes
  written to the output. -/
  _olm_crypto_hmac_sha256 : List Byte → List Byte → List Byte
  hmac_length : ∀ k d, (_olm_crypto_hmac_sha256 k d).length = SHA256_OUTPUT_LENGTH
  /-- The value of `olm::aes_encrypt_cbc_length(input_length)`. -/
  aes_encrypt_cbc_length : Nat → Nat
  /-- The call `olm::aes_encrypt_cbc(key, iv, input)`: the bytes written to the output. -/
  aes_encrypt_cbc : List Byte → List Byte → List Byte → List Byte
  aes_encrypt_cbc_size : ∀ k iv p,
    (aes_encrypt_cbc k iv p).length = aes_encrypt_cbc_length p.length
  /-- The call `olm::aes_decrypt_cbc(key, iv, input)`: the bytes written to the output
  and the returned length. -/
  aes_decrypt_cbc : List Byte → List Byte → List Byte → List Byte × Nat

/-- One call of a primitive, with the arguments of the C call (buffers that
live in the memory are given by pointer and length). -/
inductive Call where
  | _olm_crypto_hkdf_sha256 (input salt info : List Byte) (output_length : Nat)
  | _olm_crypto_hmac_sha256 (key : List Byte) (input input_length : Nat)
  | aes_encrypt_cbc (key iv : List Byte) (input input_length output : Nat)
  | aes_decrypt_cbc (key iv : List Byte) (input input_length output : Nat)
deriving DecidableEq, Repr

/-- The record `DerivedKeys` of `cipher.cpp`, lines 22-26. -/
structure DerivedKeys where
  aes_key : List Byte
  mac_key : List Byte
  aes_iv : List Byte
deriving DecidableEq, Repr

/-- Modelled from the spec: the struct `_olm_cipher_aes_sha_256` of
`olm/cipher.h` is missing from the sources; the spec's CipherConfig "holds the
fixed context label (KDF info string)", which `cipher.cpp` reads as `kdf_info`
and `kdf_info_length` (here the length of the list). -/
structure _olm_cipher_aes_sha_256 where
  kdf_info : List Byte
deriving DecidableEq, Repr

/-- Modelled from the spec: `olm::load_array` of `olm/memory.hh` is missing from
the sources; the spec has the 80 derived bytes "split into cipher_key (32) ‖
mac_key (32) ‖ iv (16)", so it copies the next `n` bytes into the destination
and returns the position after them. -/
def olm.load_array (n : Nat) (pos : List Byte) : List Byte × List Byte :=
  (pos.take n, pos.drop n)

/-- Modelled from the spec: `olm::unset` of `olm/memory.hh` is missing from the
sources; the spec has secrets "securely erased (overwritten with zero)", so an
object of `size` bytes becomes `size` zero bytes. -/
def olm.unset (size : Nat) : List Byte := List.replicate size 0

/-- Modelled from the spec: `olm::is_equal` of `olm/memory.hh` is missing from
the sources; the spec asks for a "constant-time comparison (no early exit on
first mismatching byte)": the differences of all byte pairs are accumulated
and the result is whether the accumulator is zero. -/
def olm.is_equal (a b : List Byte) : Bool :=
  (List.zipWith (fun x y => x ^^^ y) a b).foldl (fun diff d => diff ||| d) 0 == 0

/-- What `olm::unset(keys)` leaves in a `DerivedKeys` record. -/
def unset_keys : DerivedKeys :=
  { aes_key := olm.unset KEY_LENGTH
    mac_key := olm.unset KEY_LENGTH
    aes_iv := olm.unset IV_LENGTH }

/-- The state at the return of `derive_keys`: the filled `keys`, the local
`derived_secrets` buffer as it is left, and the primitive calls made. -/
structure DeriveKeysExit where
  keys : DerivedKeys
  derived_secrets : List Byte
  trace : List Call
deriving DecidableEq, Repr

/-- The function `derive_keys`, `cipher.cpp` lines 29-46. -/
def derive_keys (P : Primitives) (kdf_info key : List Byte) : DeriveKeysExit :=
  let derived_secrets :=
    P._olm_crypto_hkdf_sha256 key [] kdf_info (2 * KEY_LENGTH + IV_LENGTH)
  let pos := derived_secrets
  let aes_key := olm.load_array KEY_LENGTH pos
  let mac_key := olm.load_array KEY_LENGTH aes_key.2
  let aes_iv := olm.load_array IV_LENGTH mac_key.2
  { keys := { aes_key := aes_key.1, mac_key := mac_key.1, aes_iv := aes_iv.1 }
    derived_secrets := olm.unset (2 * KEY_LENGTH + IV_LENGTH)
    trace := [Call._olm_crypto_hkdf_sha256 key [] kdf_info (2 * KEY_LENGTH + IV_LENGTH)] }

/-- The function `aes_sha_256_cipher_mac_length`, lines 50-52. -/
def aes_sha_256_cipher_mac_length : Nat := MAC_LENGTH

/-- The function `aes_sha_256_cipher_encrypt_ciphertext_length`, lines 54-58. -/
def aes_sha_256_cipher_encrypt_ciphertext_length (P : Primitives)
    (plaintext_length : Nat) : Nat :=
  P.aes_encrypt_cbc_length plaintext_length

/-- The state at a `return` of the cipher's encrypt or decrypt: the returned
`size_t`, the memory, the local `keys` (`none` before `derive_keys` has filled
it) and the primitive calls made. -/
structure Exit where
  ret : Nat
  mem : Mem
  keys : Option DerivedKeys
  trace : List Call
deriving DecidableEq, Repr

/-- How a call ends: it returns, or it accesses bytes outside the memory
(undefined behaviour), after the primitive calls of `trace`. -/
inductive Outcome where
  | exit (e : Exit)
  | fault (trace : List Call)
deriving DecidableEq, Repr

/-- The function `aes_sha_256_cipher_encrypt`, lines 60-91. -/
def aes_sha_256_cipher_encrypt (P : Primitives) (c : _olm_cipher_aes_sha_256)
    (key : List Byte) (m : Mem)
    (plaintext plaintext_length ciphertext ciphertext_length
      output output_length : Nat) : Outcome :=
  if aes_sha_256_cipher_encrypt_ciphertext_length P plaintext_length
      < ciphertext_length then
    Outcome.exit { ret := SIZE_T_MINUS_ONE, mem := m, keys := none, trace := [] }
  else
    let d := derive_keys P c.kdf_info key
    let keys := d.keys
    let t1 := d.trace ++
      [Call.aes_encrypt_cbc keys.aes_key keys.aes_iv plaintext plaintext_length ciphertext]
    match readBytes m plaintext plaintext_length with
    | none => Outcome.fault t1
    | some p =>
      match writeBytes m ciphertext (P.aes_encrypt_cbc keys.aes_key keys.aes_iv p) with
      | none => Outcome.fault t1
      | some m1 =>
        let t2 := t1 ++
          [Call._olm_crypto_hmac_sha256 keys.mac_key output (size_sub output_length MAC_LENGTH)]
        match readBytes m1 output (size_sub output_length MAC_LENGTH) with
        | none => Outcome.fault t2
        | some data =>
          let mac := P._olm_crypto_hmac_sha256 keys.mac_key data
          match writeBytes m1 (size_sub (size_add output output_length) MAC_LENGTH)
              (mac.take MAC_LENGTH) with
          | none => Outcome.fault t2
          | some m2 =>
            Outcome.exit
              { ret := output_length, mem := m2, keys := some unset_keys, trace := t2 }

/-- The function `aes_sha_256_cipher_decrypt_max_plaintext_length`, lines 94-99. -/
def aes_sha_256_cipher_decrypt_max_plaintext_length (ciphertext_length : Nat) : Nat :=
  ciphertext_length

/-- The function `aes_sha_256_cipher_decrypt`, lines 101-131.  As in the source,
`max_plaintext_length` is a parameter that the body never reads. -/
def aes_sha_256_cipher_decrypt (P : Primitives) (c : _olm_cipher_aes_sha_256)
    (key : List Byte) (m : Mem)
    (input input_length ciphertext ciphertext_length
      plaintext _max_plaintext_length : Nat) : Outcome :=
  let d := derive_keys P c.kdf_info key
  let keys := d.keys
  let t1 := d.trace ++
    [Call._olm_crypto_hmac_sha256 keys.mac_key input (size_sub input_length MAC_LENGTH)]
  match readBytes m input (size_sub input_length MAC_LENGTH) with
  | none => Outcome.fault t1
  | some data =>
    let mac := P._olm_crypto_hmac_sha256 keys.mac_key data
    let input_mac := size_sub (size_add input input_length) MAC_LENGTH
    match readBytes m input_mac MAC_LENGTH with
    | none => Outcome.fault t1
    | some tag =>
      if !olm.is_equal tag (mac.take MAC_LENGTH) then
        Outcome.exit
          { ret := SIZE_T_MINUS_ONE, mem := m, keys := some unset_keys, trace := t1 }
      else
        let t2 := t1 ++
          [Call.aes_decrypt_cbc keys.aes_key keys.aes_iv ciphertext ciphertext_length plaintext]
        match readBytes m ciphertext ciphertext_length with
        | none => Outcome.fault t2
        | some ct =>
          let r := P.aes_decrypt_cbc keys.aes_key keys.aes_iv ct
          match writeBytes m plaintext r.1 with
          | none => Outcome.fault t2
          | some m1 =>
            Outcome.exit
              { ret := r.2, mem := m1, keys := some unset_keys, trace := t2 }

/-- A small instance of the primitives on which the embedding can be run: a
keyed checksum for HKDF and HMAC, and a byte-wise keyed cipher with the
block padding of CBC (`aes_encrypt_cbc_length n = n + 16 - n % 16`, the last
byte of the padded text is the padding length). -/
def samplePrimitives : Primitives where
  _olm_crypto_hkdf_sha256 i s f n :=
    (List.range n).map (fun j => (i.sum + 3 * s.sum + 5 * f.sum + 7 * j) % 256)
  hkdf_length := by intros; simp
  _olm_crypto_hmac_sha256 k d :=
    (List.range SHA256_OUTPUT_LENGTH).map
      (fun j => (k.sum + d.foldl (fun a b => (31 * a + b + 1) % 256) 7 + 11 * j) % 256)
  hmac_length := by intros; simp
  aes_encrypt_cbc_length n := n + 16 - n % 16
  aes_encrypt_cbc k iv p :=
    (p ++ List.replicate (16 - p.length % 16) (16 - p.length % 16)).map
      (fun b => b ^^^ (k.headD 0 ^^^ iv.headD 0))
  aes_encrypt_cbc_size := by intros; simp; omega
  aes_decrypt_cbc k iv c :=
    let out := c.map (fun b => b ^^^ (k.headD 0 ^^^ iv.headD 0))
    let padding := out.getLastD 0
    (out, if padding > c.length then SIZE_T_MINUS_ONE else c.length - padding)

/-- The cipher configuration of the sample runs: the KDF info `"OLM"`. -/
def sampleCipher : _olm_cipher_aes_sha_256 := { kdf_info := [79, 76, 77] }

/-- The key of the sample runs. -/
def sampleKey : List Byte := [1, 2, 3, 4]

/-- The memory of the sample runs: a 3-byte plaintext `"abc"` at address 0, and
48 bytes holding `0xAA` from address 16 on. -/
def sampleMem : Mem := [97, 98, 99] ++ List.replicate 13 0 ++ List.replicate 48 170

/-- The error codes of `olm/error.h` that the SAS header's comments name. -/
inductive OlmErrorCode where
  | OLM_SUCCESS
  | OLM_NOT_ENOUGH_RANDOM
  | OLM_OUTPUT_BUFFER_TOO_SMALL
  | OLM_INPUT_BUFFER_TOO_SMALL
  | OLM_SAS_THEIR_KEY_NOT_SET
deriving DecidableEq, Repr

/-- Modelled from the spec: the struct behind `OlmSAS` (`sas.h` only declares
the type) is missing from the sources; the spec's "SAS session state" has the
own key pair, the optional peer key (`none` until `olm_sas_set_their_key` has
succeeded), the shared secret and the latched `last_error`. -/
structure OlmSAS where
  own_private_key : List Byte
  own_public_key : List Byte
  their_public_key : Option (List Byte)
  shared_secret : List Byte
  last_error : OlmErrorCode
deriving DecidableEq, Repr

/-- Modelled from the spec: the constants and encoders the SAS functions use
are missing from the sources: the size `olm_sas_mac_length()` reports, the
original and the fixed base64 encoders, and the key length of the long-KDF
variant.  Neither the spec nor `sas.h` says which of the two failure checks of
the `calculate_mac` functions (buffer too small, peer key not set) comes
first, so that order is a parameter too: `buffer_check_first`. -/
structure SasParameters where
  olm_sas_mac_length : Nat
  encode_base64 : List Byte → List Byte
  encode_base64_fixed : List Byte → List Byte
  long_kdf_length : Nat
  buffer_check_first : Bool

/-- Modelled from the spec: `olm_error()` is missing from the sources; it is
the value the header's comments name as the result "on failure", the
`size_t(-1)` failure value. -/
def olm_error : Nat := SIZE_T_MINUS_ONE

/-- The state at the return of a SAS function: the returned `size_t`, the SAS
object, and the bytes written to the caller's output buffer (`none` when the
buffer is not written). -/
structure SasExit where
  ret : Nat
  sas : OlmSAS
  output : Option (List Byte)
deriving DecidableEq, Repr

/-- Modelled from the spec: the body of `olm_sas_generate_bytes` (declared in
`sas.h`, lines 125-142) is missing from the sources.  Spec: "Fails with
`TheirKeyNotSet` if the peer key is absent. Otherwise: ... run HKDF-SHA256 with
empty salt, the shared secret as input key material, `info` as context,
requesting `output_length` bytes; return them directly". -/
def olm_sas_generate_bytes (P : Primitives) (sas : OlmSAS) (info : List Byte)
    (output_length : Nat) : SasExit :=
  match sas.their_public_key with
  | none =>
    { ret := olm_error
      sas := { sas with last_error := OlmErrorCode.OLM_SAS_THEIR_KEY_NOT_SET }
      output := none }
  | some _ =>
    { ret := 0
      sas := sas
      output := some (P._olm_crypto_hkdf_sha256 sas.shared_secret [] info output_length) }

/-- Modelled from the spec: the common body of the three `calculate_mac`
functions (declared in `sas.h`, lines 150-187) is missing from the sources.
Header: "If the `mac` buffer is too small, then `olm_sas_last_error()` will be
`OUTPUT_BUFFER_TOO_SMALL`"; spec: "fails with `OutputBufferTooSmall` if the
caller's buffer is undersized for any variant", and with `TheirKeyNotSet`
before the peer key is set; otherwise "derive a MAC key from the shared secret
via HKDF with `info` as context, compute HMAC-SHA256 over `input`, encode".
The two failure checks are made in the order `S.buffer_check_first` gives. -/
def sas_calculate_mac (P : Primitives) (S : SasParameters) (kdf_length : Nat)
    (encode : List Byte → List Byte) (sas : OlmSAS) (input info : List Byte)
    (mac_length : Nat) : SasExit :=
  let too_small : SasExit :=
    { ret := olm_error
      sas := { sas with last_error := OlmErrorCode.OLM_OUTPUT_BUFFER_TOO_SMALL }
      output := none }
  let key_not_set : SasExit :=
    { ret := olm_error
      sas := { sas with last_error := OlmErrorCode.OLM_SAS_THEIR_KEY_NOT_SET }
      output := none }
  let key := P._olm_crypto_hkdf_sha256 sas.shared_secret [] info kdf_length
  let done : SasExit :=
    { ret := 0
      sas := sas
      output := some (encode (P._olm_crypto_hmac_sha256 key input)) }
  if S.buffer_check_first then
    if mac_length < S.olm_sas_mac_length then too_small
    else
      match sas.their_public_key with
      | none => key_not_set
      | some _ => done
  else
    match sas.their_public_key with
    | none => key_not_set
    | some _ => if mac_length < S.olm_sas_mac_length then too_small else done

/-- Modelled from the spec: `olm_sas_calculate_mac`, the "legacy (original)
variant: the original encoding". -/
def olm_sas_calculate_mac (P : Primitives) (S : SasParameters) (sas : OlmSAS)
    (input info : List Byte) (mac_length : Nat) : SasExit :=
  sas_calculate_mac P S KEY_LENGTH S.encode_base64 sas input info mac_length

/-- Modelled from the spec: `olm_sas_calculate_mac_fixed_base64`, the variant
with "a base64 alphabet that is byte-compatible with standard base64
implementations". -/
def olm_sas_calculate_mac_fixed_base64 (P : Primitives) (S : SasParameters)
    (sas : OlmSAS) (input info : List Byte) (mac_length : Nat) : SasExit :=
  sas_calculate_mac P S KEY_LENGTH S.encode_base64_fixed sas input info mac_length

/-- Modelled from the spec: `olm_sas_calculate_mac_long_kdf`, "identical
algorithm but using a legacy (longer/different) KDF expansion length". -/
def olm_sas_calculate_mac_long_kdf (P : Primitives) (S : SasParameters)
    (sas : OlmSAS) (input info : List Byte) (mac_length : Nat) : SasExit :=
  sas_calculate_mac P S S.long_kdf_length S.encode_base64 sas input info mac_length

/-- The SAS parameters of the sample runs: a 43-byte MAC (the base64 length of
32 bytes), identity encoders, a 256-byte long-KDF key, and the given order of
the two failure checks. -/
def sampleSasParameters (buffer_check_first : Bool) : SasParameters :=
  { olm_sas_mac_length := 43
    encode_base64 := fun b => b
    encode_base64_fixed := fun b => b
    long_kdf_length := 256
    buffer_check_first := buffer_check_first }

/-- A SAS object for the sample runs on which no peer key has been set. -/
def sampleSas : OlmSAS :=
  { own_private_key := [1]
    own_public_key := [2]
    their_public_key := none
    shared_secret := []
    last_error := OlmErrorCode.OLM_SUCCESS }

/-- The memory with bit number `bit` of the byte at address `addr` flipped. -/
def flipBit (m : Mem) (addr bit : Nat) : Mem :=
  m.set addr (m.getD addr 0 ^^^ 2 ^ bit)

/-! ## Arithmetic on `size_t` and the memory -/

theorem size_sub_eq_mod (a b : Nat) (ha : a < SIZE_T_RANGE) (hb : b < SIZE_T_RANGE) :
    size_sub a b = (a + SIZE_T_RANGE - b) % SIZE_T_RANGE := by
  unfold size_sub SIZE_T_RANGE at *
  split <;> omega

theorem size_sub_of_le (a b : Nat) (hb : b ≤ a) : size_sub a b = a - b := by
  unfold size_sub
  rw [if_pos hb]

theorem size_sub_wraps (a b : Nat) (hab : a < b) :
    size_sub a b = a + (SIZE_T_RANGE - b) := by
  unfold size_sub
  rw [if_neg (by omega)]

theorem size_add_of_lt (a b : Nat) (h : a + b < SIZE_T_RANGE) : size_add a b = a + b := by
  unfold size_add SIZE_T_RANGE at *
  omega

theorem readBytes_of_le (m : Mem) (p n : Nat) (h : p + n ≤ m.length) :
    readBytes m p n = some ((m.drop p).take n) := by
  simp [readBytes, h]

theorem readBytes_none_of_lt (m : Mem) (p n : Nat) (h : m.length < p + n) :
    readBytes m p n = none := by
  simp [readBytes]; omega

theorem readBytes_length (m : Mem) (p n : Nat) (bs : List Byte)
    (h : readBytes m p n = some bs) : bs.length = n ∧ p + n ≤ m.length := by
  unfold readBytes at h
  split at h
  · cases h
    simp; omega
  · cases h

theorem writeBytes_of_le (m : Mem) (p : Nat) (bs : List Byte) (h : p + bs.length ≤ m.length) :
    writeBytes m p bs = some (m.take p ++ bs ++ m.drop (p + bs.length)) := by
  simp [writeBytes, h]

theorem writeBytes_length (m m1 : Mem) (p : Nat) (bs : List Byte)
    (h : writeBytes m p bs = some m1) : m1.length = m.length := by
  unfold writeBytes at h
  split at h
  · cases h
    simp; omega
  · cases h

/-- Reading back exactly what was written. -/
theorem readBytes_writeBytes_same (m m1 : Mem) (p : Nat) (bs : List Byte)
    (h : writeBytes m p bs = some m1) : readBytes m1 p bs.length = some bs := by
  have hl := writeBytes_length m m1 p bs h
  unfold writeBytes at h
  split at h
  · rename_i hle
    cases h
    rw [readBytes_of_le _ _ _ (by simp; omega)]
    have h1 : (List.take p m).length = p := by simp; omega
    simp [List.drop_append_eq_append_drop, h1, List.take_append_eq_append_take]
  · cases h

/-- Reading the leading bytes of what was written. -/
theorem readBytes_writeBytes_take (m m1 : Mem) (p n : Nat) (bs : List Byte)
    (h : writeBytes m p bs = some m1) (hn : n ≤ bs.length) :
    readBytes m1 p n = some (bs.take n) := by
  have hl := writeBytes_length m m1 p bs h
  unfold writeBytes at h
  split at h
  · rename_i hle
    cases h
    rw [readBytes_of_le _ _ _ (by simp; omega)]
    have h1 : (List.take p m).length = p := by simp; omega
    simp [List.drop_append_eq_append_drop, h1, List.take_append_eq_append_take]
    omega
  · cases h

/-- A write leaves the bytes before it as they were. -/
theorem readBytes_writeBytes_before (m m1 : Mem) (p q n : Nat) (bs : List Byte)
    (h : writeBytes m p bs = some m1) (hq : q + n ≤ p) :
    readBytes m1 q n = readBytes m q n := by
  have hl := writeBytes_length m m1 p bs h
  unfold writeBytes at h
  split at h
  · rename_i hle
    cases h
    rw [readBytes_of_le _ _ _ (by simp; omega), readBytes_of_le _ _ _ (by omega)]
    congr 1
    apply List.ext_getElem
    · simp; omega
    · intro i h1 h2
      simp at h1 h2
      simp [List.getElem_take, List.getElem_drop, List.getElem_append]
      rw [dif_pos ⟨by omega, by omega⟩]
  · cases h

/-- A write leaves the bytes after it as they were. -/
theorem readBytes_writeBytes_after (m m1 : Mem) (p q n : Nat) (bs : List Byte)
    (h : writeBytes m p bs = some m1) (hq : p + bs.length ≤ q) :
    readBytes m1 q n = readBytes m q n := by
  have hl := writeBytes_length m m1 p bs h
  by_cases hb : q + n ≤ m.length
  · unfold writeBytes at h
    split at h
    · rename_i hle
      cases h
      rw [readBytes_of_le _ _ _ (by simp; omega), readBytes_of_le _ _ _ (by omega)]
      congr 1
      apply List.ext_getElem
      · simp; omega
      · intro i h1 h2
        simp at h1 h2
        simp [List.getElem_take, List.getElem_drop, List.getElem_append]
        have e1 : ¬ (q + i < p) := by omega
        have e2 : ¬ (q + i - min p m.length < bs.length) := by omega
        simp [e1, e2]
        congr 1
        omega
    · cases h
  · rw [readBytes_none_of_lt _ _ _ (by omega), readBytes_none_of_lt _ _ _ (by omega)]

/-! ## The comparison `olm::is_equal` -/

theorem nat_lor_eq_zero (x y : Nat) : x ||| y = 0 ↔ x = 0 ∧ y = 0 := by
  constructor
  · intro h
    have hb : ∀ i, (x.testBit i || y.testBit i) = false := by
      intro i
      rw [← Nat.testBit_or, h, Nat.zero_testBit]
    constructor
    · apply Nat.eq_of_testBit_eq
      intro i
      have := hb i
      simp at this
      simp [this.1]
    · apply Nat.eq_of_testBit_eq
      intro i
      have := hb i
      simp at this
      simp [this.2]
  · rintro ⟨rfl, rfl⟩
    rfl

theorem foldl_lor_eq_zero (l : List Nat) (acc : Nat) :
    List.foldl (fun diff d => diff ||| d) acc l = 0 ↔ acc = 0 ∧ ∀ d ∈ l, d = 0 := by
  induction l generalizing acc with
  | nil => simp
  | cons x xs ih =>
    simp only [List.foldl_cons, ih, nat_lor_eq_zero, List.mem_cons, forall_eq_or_imp]
    tauto

theorem zipWith_xor_zero (a b : List Byte) (h : a.length = b.length) :
    (∀ d ∈ List.zipWith (fun x y => x ^^^ y) a b, d = 0) ↔ a = b := by
  induction a generalizing b with
  | nil =>
    cases b with
    | nil => simp
    | cons y ys => simp at h
  | cons x xs ih =>
    cases b with
    | nil => simp at h
    | cons y ys =>
      simp only [List.length_cons, Nat.add_right_cancel_iff] at h
      simp only [List.zipWith_cons_cons, List.mem_cons, forall_eq_or_imp, ih ys h,
        Nat.xor_eq_zero, List.cons.injEq]

/-- On buffers of the same length `olm::is_equal` decides equality. -/
theorem is_equal_iff (a b : List Byte) (h : a.length = b.length) :
    olm.is_equal a b = true ↔ a = b := by
  unfold olm.is_equal
  rw [beq_iff_eq, foldl_lor_eq_zero, zipWith_xor_zero a b h]
  simp

/-! ## `derive_keys` -/

theorem derive_keys_trace (P : Primitives) (kdf_info key : List Byte) :
    (derive_keys P kdf_info key).trace =
      [Call._olm_crypto_hkdf_sha256 key [] kdf_info 80] := rfl

theorem derive_keys_mac_key_length (P : Primitives) (kdf_info key : List Byte) :
    (derive_keys P kdf_info key).keys.mac_key.length = KEY_LENGTH := by
  simp [derive_keys, olm.load_array, P.hkdf_length, KEY_LENGTH, IV_LENGTH]

theorem hmac_take_length (P : Primitives) (k d : List Byte) :
    ((P._olm_crypto_hmac_sha256 k d).take MAC_LENGTH).length = MAC_LENGTH := by
  simp [P.hmac_length, MAC_LENGTH, SHA256_OUTPUT_LENGTH]

/-- C6. Derived-key layout: for every KDF info and key, the three keys that
`derive_keys` fills are, in the order `aes_key`, `mac_key`, `aes_iv` and with
lengths 32, 32 and 16, the 80 bytes of one HKDF-SHA256 expansion of the key
with an empty salt and the KDF info as info: bytes 0..31, 32..63 and 64..79. -/
theorem derive_keys_layout (P : Primitives) (kdf_info key : List Byte) :
    (derive_keys P kdf_info key).keys.aes_key
        ++ (derive_keys P kdf_info key).keys.mac_key
        ++ (derive_keys P kdf_info key).keys.aes_iv
      = P._olm_crypto_hkdf_sha256 key [] kdf_info 80
    ∧ (P._olm_crypto_hkdf_sha256 key [] kdf_info 80).length = 80
    ∧ (derive_keys P kdf_info key).keys.aes_key.length = 32
    ∧ (derive_keys P kdf_info key).keys.mac_key.length = 32
    ∧ (derive_keys P kdf_info key).keys.aes_iv.length = 16
    ∧ (derive_keys P kdf_info key).keys.aes_key
        = (P._olm_crypto_hkdf_sha256 key [] kdf_info 80).take 32
    ∧ (derive_keys P kdf_info key).keys.mac_key
        = ((P._olm_crypto_hkdf_sha256 key [] kdf_info 80).drop 32).take 32
    ∧ (derive_keys P kdf_info key).keys.aes_iv
        = (P._olm_crypto_hkdf_sha256 key [] kdf_info 80).drop 64
    ∧ (derive_keys P kdf_info key).trace
        = [Call._olm_crypto_hkdf_sha256 key [] kdf_info 80] := by
  have hl := P.hkdf_length key [] kdf_info 80
  have h3 : List.take 16 (List.drop 64 (P._olm_crypto_hkdf_sha256 key [] kdf_info 80))
      = List.drop 64 (P._olm_crypto_hkdf_sha256 key [] kdf_info 80) := by
    apply List.take_of_length_le
    simp [hl]
  have h4 : List.drop 64 (P._olm_crypto_hkdf_sha256 key [] kdf_info 80)
      = List.drop 32 (List.drop 32 (P._olm_crypto_hkdf_sha256 key [] kdf_info 80)) := by
    rw [List.drop_drop]
  refine ⟨?_, hl, ?_, ?_, ?_, ?_, ?_, ?_, rfl⟩
  · simp only [derive_keys, olm.load_array, KEY_LENGTH, IV_LENGTH, List.drop_drop]
    norm_num
    rw [h3, h4, List.take_append_drop, List.take_append_drop]
  · simp [derive_keys, olm.load_array, KEY_LENGTH, IV_LENGTH, hl]
  · simp [derive_keys, olm.load_array, KEY_LENGTH, IV_LENGTH, hl]
  · simp [derive_keys, olm.load_array, KEY_LENGTH, IV_LENGTH, hl]
  · simp [derive_keys, olm.load_array, KEY_LENGTH, IV_LENGTH]
  · simp [derive_keys, olm.load_array, KEY_LENGTH, IV_LENGTH]
  · simp only [derive_keys, olm.load_array, KEY_LENGTH, IV_LENGTH, List.drop_drop]
    norm_num
    exact le_of_eq hl

/-! ## Runs of the cipher -/

/-- The run of `aes_sha_256_cipher_encrypt` once the size check is passed and
the buffers lie in the memory: the ciphertext is written first (`m1`), the
HMAC is taken over the first `output_length - 8` bytes of `output` as they are
in `m1`, and its first 8 bytes are written at the end of `output`. -/
theorem encrypt_run (P : Primitives) (c : _olm_cipher_aes_sha_256) (key : List Byte)
    (m m1 : Mem) (p : List Byte)
    (plaintext plaintext_length ciphertext ciphertext_length output output_length : Nat)
    (hm : m.length < SIZE_T_RANGE)
    (hsize : ¬ (P.aes_encrypt_cbc_length plaintext_length < ciphertext_length))
    (hp : readBytes m plaintext plaintext_length = some p)
    (hw : writeBytes m ciphertext
      (P.aes_encrypt_cbc (derive_keys P c.kdf_info key).keys.aes_key
        (derive_keys P c.kdf_info key).keys.aes_iv p) = some m1)
    (hmac : MAC_LENGTH ≤ output_length)
    (hout : output + output_length ≤ m.length) :
    ∃ data m2,
      readBytes m1 output (output_length - MAC_LENGTH) = some data ∧
      writeBytes m1 (output + (output_length - MAC_LENGTH))
        ((P._olm_crypto_hmac_sha256 (derive_keys P c.kdf_info key).keys.mac_key data).take
          MAC_LENGTH) = some m2 ∧
      aes_sha_256_cipher_encrypt P c key m plaintext plaintext_length ciphertext
          ciphertext_length output output_length =
        Outcome.exit
          { ret := output_length
            mem := m2
            keys := some unset_keys
            trace :=
              [Call._olm_crypto_hkdf_sha256 key [] c.kdf_info 80,
               Call.aes_encrypt_cbc (derive_keys P c.kdf_info key).keys.aes_key
                 (derive_keys P c.kdf_info key).keys.aes_iv plaintext plaintext_length
                 ciphertext,
               Call._olm_crypto_hmac_sha256 (derive_keys P c.kdf_info key).keys.mac_key
                 output (output_length - MAC_LENGTH)] } := by
  have hl1 := writeBytes_length m m1 _ _ hw
  have hsub : size_sub output_length MAC_LENGTH = output_length - MAC_LENGTH :=
    size_sub_of_le _ _ hmac
  have hptr : size_sub (size_add output output_length) MAC_LENGTH
      = output + (output_length - MAC_LENGTH) := by
    rw [size_add_of_lt _ _ (by omega), size_sub_of_le _ _ (by omega)]
    omega
  have hrd : readBytes m1 output (output_length - MAC_LENGTH)
      = some ((m1.drop output).take (output_length - MAC_LENGTH)) :=
    readBytes_of_le _ _ _ (by omega)
  have hw2 := writeBytes_of_le m1 (output + (output_length - MAC_LENGTH))
    ((P._olm_crypto_hmac_sha256 (derive_keys P c.kdf_info key).keys.mac_key
      ((m1.drop output).take (output_length - MAC_LENGTH))).take MAC_LENGTH)
    (by rw [hmac_take_length]; omega)
  refine ⟨_, _, hrd, hw2, ?_⟩
  unfold aes_sha_256_cipher_encrypt aes_sha_256_cipher_encrypt_ciphertext_length
  rw [if_neg hsize, hsub, hptr]
  dsimp only
  rw [hp]
  dsimp only
  rw [hw]
  dsimp only
  rw [hrd]
  dsimp only
  rw [hw2, derive_keys_trace]
  rfl

/-- The run of `aes_sha_256_cipher_decrypt` on an input that lies in the
memory and is at least as long as the tag. -/
theorem decrypt_run (P : Primitives) (c : _olm_cipher_aes_sha_256) (key : List Byte)
    (m : Mem) (data tag : List Byte)
    (input input_length ciphertext ciphertext_length plaintext max_plaintext_length : Nat)
    (hm : m.length < SIZE_T_RANGE)
    (hlen : MAC_LENGTH ≤ input_length)
    (hdata : readBytes m input (input_length - MAC_LENGTH) = some data)
    (htag : readBytes m (input + (input_length - MAC_LENGTH)) MAC_LENGTH = some tag) :
    aes_sha_256_cipher_decrypt P c key m input input_length ciphertext ciphertext_length
        plaintext max_plaintext_length =
      if tag = (P._olm_crypto_hmac_sha256 (derive_keys P c.kdf_info key).keys.mac_key
          data).take MAC_LENGTH then
        match readBytes m ciphertext ciphertext_length with
        | none =>
          Outcome.fault
            [Call._olm_crypto_hkdf_sha256 key [] c.kdf_info 80,
             Call._olm_crypto_hmac_sha256 (derive_keys P c.kdf_info key).keys.mac_key
               input (input_length - MAC_LENGTH),
             Call.aes_decrypt_cbc (derive_keys P c.kdf_info key).keys.aes_key
               (derive_keys P c.kdf_info key).keys.aes_iv ciphertext ciphertext_length
               plaintext]
        | some ct =>
          match writeBytes m plaintext
              (P.aes_decrypt_cbc (derive_keys P c.kdf_info key).keys.aes_key
                (derive_keys P c.kdf_info key).keys.aes_iv ct).1 with
          | none =>
            Outcome.fault
              [Call._olm_crypto_hkdf_sha256 key [] c.kdf_info 80,
               Call._olm_crypto_hmac_sha256 (derive_keys P c.kdf_info key).keys.mac_key
                 input (input_length - MAC_LENGTH),
               Call.aes_decrypt_cbc (derive_keys P c.kdf_info key).keys.aes_key
                 (derive_keys P c.kdf_info key).keys.aes_iv ciphertext ciphertext_length
                 plaintext]
          | some m1 =>
            Outcome.exit
              { ret := (P.aes_decrypt_cbc (derive_keys P c.kdf_info key).keys.aes_key
                  (derive_keys P c.kdf_info key).keys.aes_iv ct).2
                mem := m1
                keys := some unset_keys
                trace :=
                  [Call._olm_crypto_hkdf_sha256 key [] c.kdf_info 80,
                   Call._olm_crypto_hmac_sha256
                     (derive_keys P c.kdf_info key).keys.mac_key
                     input (input_length - MAC_LENGTH),
                   Call.aes_decrypt_cbc (derive_keys P c.kdf_info key).keys.aes_key
                     (derive_keys P c.kdf_info key).keys.aes_iv ciphertext
                     ciphertext_length plaintext] }
      else
        Outcome.exit
          { ret := SIZE_T_MINUS_ONE
            mem := m
            keys := some unset_keys
            trace :=
              [Call._olm_crypto_hkdf_sha256 key [] c.kdf_info 80,
               Call._olm_crypto_hmac_sha256 (derive_keys P c.kdf_info key).keys.mac_key
                 input (input_length - MAC_LENGTH)] } := by
  have hb := (readBytes_length _ _ _ _ htag).2
  have htl := (readBytes_length _ _ _ _ htag).1
  have hsub : size_sub input_length MAC_LENGTH = input_length - MAC_LENGTH :=
    size_sub_of_le _ _ hlen
  have hptr : size_sub (size_add input input_length) MAC_LENGTH
      = input + (input_length - MAC_LENGTH) := by
    rw [size_add_of_lt _ _ (by omega), size_sub_of_le _ _ (by omega)]
    omega
  have heq := is_equal_iff tag
    ((P._olm_crypto_hmac_sha256 (derive_keys P c.kdf_info key).keys.mac_key data).take
      MAC_LENGTH) (by rw [htl, hmac_take_length])
  unfold aes_sha_256_cipher_decrypt
  rw [hsub, hptr]
  dsimp only
  rw [hdata]
  dsimp only
  rw [htag, derive_keys_trace]
  dsimp only
  by_cases h : tag = (P._olm_crypto_hmac_sha256 (derive_keys P c.kdf_info key).keys.mac_key
      data).take MAC_LENGTH
  · rw [if_pos h, heq.mpr h]
    cases readBytes m ciphertext ciphertext_length with
    | none => rfl
    | some ct =>
      cases writeBytes m plaintext
          (P.aes_decrypt_cbc (derive_keys P c.kdf_info key).keys.aes_key
            (derive_keys P c.kdf_info key).keys.aes_iv ct).1 with
      | none => rfl
      | some m1 => rfl
  · have h1 : olm.is_equal tag
        ((P._olm_crypto_hmac_sha256 (derive_keys P c.kdf_info key).keys.mac_key data).take
          MAC_LENGTH) = false := by
      cases hq : olm.is_equal tag
        ((P._olm_crypto_hmac_sha256 (derive_keys P c.kdf_info key).keys.mac_key data).take
          MAC_LENGTH) with
      | false => rfl
      | true => exact absurd (heq.mp hq) h
    rw [if_neg h, h1]
    rfl

/-- Every return of the cipher: the early return of encrypt comes before any
primitive call, all others come after the HKDF call with `keys` unset. -/
theorem cipher_returns_follow_hkdf (P : Primitives) (c : _olm_cipher_aes_sha_256)
    (key : List Byte) (m : Mem) (a1 a2 a3 a4 a5 a6 : Nat) :
    (∀ e, aes_sha_256_cipher_encrypt P c key m a1 a2 a3 a4 a5 a6 = Outcome.exit e →
      (aes_sha_256_cipher_encrypt_ciphertext_length P a2 < a4) ∨
      (Call._olm_crypto_hkdf_sha256 key [] c.kdf_info 80 ∈ e.trace ∧
        e.keys = some unset_keys)) ∧
    (∀ e, aes_sha_256_cipher_decrypt P c key m a1 a2 a3 a4 a5 a6 = Outcome.exit e →
      Call._olm_crypto_hkdf_sha256 key [] c.kdf_info 80 ∈ e.trace ∧
        e.keys = some unset_keys) := by
  refine ⟨?_, ?_⟩
  · intro e h
    unfold aes_sha_256_cipher_encrypt at h
    split at h
    · rename_i hlt
      exact Or.inl hlt
    · right
      dsimp only at h
      rw [derive_keys_trace] at h
      split at h
      · cases h
      · split at h
        · cases h
        · split at h
          · cases h
          · split at h
            · cases h
            · cases h
              exact ⟨by simp, rfl⟩
  · intro e h
    unfold aes_sha_256_cipher_decrypt at h
    dsimp only at h
    rw [derive_keys_trace] at h
    split at h
    · cases h
    · split at h
      · cases h
      · split at h
        · cases h
          exact ⟨by simp, rfl⟩
        · split at h
          · cases h
          · split at h
            · cases h
            · cases h
              exact ⟨by simp, rfl⟩


/-! ## Properties of the cipher -/

/-- C1. Round trip: for every cipher configuration, key and plaintext `p` held
in the memory, encrypting with `ciphertext_length` equal to
`aes_sha_256_cipher_encrypt_ciphertext_length (len p)` into an output buffer
made of that ciphertext region followed by the 8 tag bytes returns
`output_length`, and decrypting that output (input = the whole output,
ciphertext = the same region) with the same configuration and key does not
return the failure value, returns `len p`, and leaves `p` in the first `len p`
bytes of the plaintext buffer, provided the AES-CBC decrypt primitive inverts
the AES-CBC encrypt primitive at the derived key and IV (it returns `len p`,
writes `p` first, and never writes more than the ciphertext length). -/
theorem cipher_round_trip (P : Primitives) (c : _olm_cipher_aes_sha_256)
    (key : List Byte) (m : Mem) (p : List Byte) (plaintext output plaintext_out : Nat)
    (hm : m.length < SIZE_T_RANGE)
    (hp : readBytes m plaintext p.length = some p)
    (hout : output + (aes_sha_256_cipher_encrypt_ciphertext_length P p.length + MAC_LENGTH)
      ≤ m.length)
    (hbuf : plaintext_out + aes_sha_256_cipher_decrypt_max_plaintext_length
      (aes_sha_256_cipher_encrypt_ciphertext_length P p.length) ≤ m.length)
    (hret : (P.aes_decrypt_cbc (derive_keys P c.kdf_info key).keys.aes_key
      (derive_keys P c.kdf_info key).keys.aes_iv
      (P.aes_encrypt_cbc (derive_keys P c.kdf_info key).keys.aes_key
        (derive_keys P c.kdf_info key).keys.aes_iv p)).2 = p.length)
    (hbytes : (P.aes_decrypt_cbc (derive_keys P c.kdf_info key).keys.aes_key
      (derive_keys P c.kdf_info key).keys.aes_iv
      (P.aes_encrypt_cbc (derive_keys P c.kdf_info key).keys.aes_key
        (derive_keys P c.kdf_info key).keys.aes_iv p)).1.take p.length = p)
    (hfit : (P.aes_decrypt_cbc (derive_keys P c.kdf_info key).keys.aes_key
      (derive_keys P c.kdf_info key).keys.aes_iv
      (P.aes_encrypt_cbc (derive_keys P c.kdf_info key).keys.aes_key
        (derive_keys P c.kdf_info key).keys.aes_iv p)).1.length
      ≤ aes_sha_256_cipher_encrypt_ciphertext_length P p.length) :
    ∃ e1 e2,
      aes_sha_256_cipher_encrypt P c key m plaintext p.length
          output (aes_sha_256_cipher_encrypt_ciphertext_length P p.length)
          output (aes_sha_256_cipher_encrypt_ciphertext_length P p.length + MAC_LENGTH)
        = Outcome.exit e1 ∧
      e1.ret = aes_sha_256_cipher_encrypt_ciphertext_length P p.length + MAC_LENGTH ∧
      aes_sha_256_cipher_decrypt P c key e1.mem
          output (aes_sha_256_cipher_encrypt_ciphertext_length P p.length + MAC_LENGTH)
          output (aes_sha_256_cipher_encrypt_ciphertext_length P p.length)
          plaintext_out
          (aes_sha_256_cipher_decrypt_max_plaintext_length
            (aes_sha_256_cipher_encrypt_ciphertext_length P p.length))
        = Outcome.exit e2 ∧
      e2.ret ≠ SIZE_T_MINUS_ONE ∧
      e2.ret = p.length ∧
      readBytes e2.mem plaintext_out p.length = some p := by
  unfold aes_sha_256_cipher_encrypt_ciphertext_length
    aes_sha_256_cipher_decrypt_max_plaintext_length at *
  generalize hks : (derive_keys P c.kdf_info key).keys = ks at *
  have hctl := P.aes_encrypt_cbc_size ks.aes_key ks.aes_iv p
  generalize hct : P.aes_encrypt_cbc ks.aes_key ks.aes_iv p = ct at *
  generalize hreq : P.aes_encrypt_cbc_length p.length = req at *
  generalize hr : P.aes_decrypt_cbc ks.aes_key ks.aes_iv ct = r at *
  have hcancel : req + MAC_LENGTH - MAC_LENGTH = req := by omega
  -- the encryption
  obtain ⟨m1, hw⟩ : ∃ m1, writeBytes m output ct = some m1 :=
    ⟨_, writeBytes_of_le m output ct (by omega)⟩
  have hl1 := writeBytes_length _ _ _ _ hw
  obtain ⟨data, m2, hdata, hw2, henc⟩ := encrypt_run P c key m m1 p plaintext p.length
    output req output (req + MAC_LENGTH) hm (by rw [hreq]; omega) hp
    (by rw [hks, hct]; exact hw) (by omega) hout
  rw [hks] at hw2 henc
  rw [hcancel] at hdata hw2
  have hl2 := writeBytes_length _ _ _ _ hw2
  have hsame := readBytes_writeBytes_same _ _ _ _ hw
  rw [hctl] at hsame
  rw [hsame] at hdata
  cases hdata
  -- the decryption of what was produced
  have hd2 : readBytes m2 output (req + MAC_LENGTH - MAC_LENGTH) = some ct := by
    rw [hcancel, readBytes_writeBytes_before _ _ _ _ _ _ hw2 (le_refl _), hsame]
  have ht2 : readBytes m2 (output + (req + MAC_LENGTH - MAC_LENGTH)) MAC_LENGTH
      = some ((P._olm_crypto_hmac_sha256 ks.mac_key ct).take MAC_LENGTH) := by
    have := readBytes_writeBytes_same _ _ _ _ hw2
    rw [hmac_take_length] at this
    rw [hcancel, this]
  have hdec := decrypt_run P c key m2 ct _ output (req + MAC_LENGTH) output req
    plaintext_out req (by omega) (by omega) hd2 ht2
  rw [hks, if_pos rfl, ← hcancel, hd2] at hdec
  simp only [hr] at hdec
  obtain ⟨m3, hw3⟩ : ∃ m3, writeBytes m2 plaintext_out r.1 = some m3 :=
    ⟨_, writeBytes_of_le m2 plaintext_out r.1 (by omega)⟩
  rw [hcancel, hw3] at hdec
  have hpl : p.length ≤ r.1.length := by
    have := congrArg List.length hbytes
    simp at this
    omega
  refine ⟨_, _, henc, rfl, hdec, ?_, hret, ?_⟩
  · show r.2 ≠ SIZE_T_MINUS_ONE
    have hmac8 : MAC_LENGTH = 8 := rfl
    unfold SIZE_T_MINUS_ONE
    unfold SIZE_T_RANGE at hm
    omega
  · show readBytes m3 plaintext_out p.length = some p
    rw [readBytes_writeBytes_take _ _ _ _ _ hw3 hpl, hbytes]

/-- C2. Verify-then-decrypt: for every cipher configuration, key and input of
length at least 8 held in the memory, when the last 8 bytes of the input
(`tag`) differ from the first 8 bytes of HMAC-SHA256 under the derived
`mac_key` of the input without its last 8 bytes (`data`),
`aes_sha_256_cipher_decrypt` returns the failure value `size_t(-1)`, the
primitive calls it has made are the HKDF and the HMAC only (the AES-CBC decrypt
primitive is not invoked), and the memory, hence the caller's plaintext
buffer, is left unchanged. -/
theorem decrypt_rejects_bad_mac (P : Primitives) (c : _olm_cipher_aes_sha_256)
    (key : List Byte) (m : Mem) (data tag : List Byte)
    (input input_length ciphertext ciphertext_length plaintext max_plaintext_length : Nat)
    (hm : m.length < SIZE_T_RANGE)
    (hlen : 8 ≤ input_length)
    (hdata : readBytes m input (input_length - 8) = some data)
    (htag : readBytes m (input + (input_length - 8)) 8 = some tag)
    (hne : tag ≠ (P._olm_crypto_hmac_sha256 (derive_keys P c.kdf_info key).keys.mac_key
      data).take 8) :
    ∃ e,
      aes_sha_256_cipher_decrypt P c key m input input_length ciphertext
          ciphertext_length plaintext max_plaintext_length = Outcome.exit e ∧
      e.ret = SIZE_T_MINUS_ONE ∧
      e.trace =
        [Call._olm_crypto_hkdf_sha256 key [] c.kdf_info 80,
         Call._olm_crypto_hmac_sha256 (derive_keys P c.kdf_info key).keys.mac_key
           input (input_length - 8)] ∧
      (∀ k iv a n o, Call.aes_decrypt_cbc k iv a n o ∉ e.trace) ∧
      e.mem = m ∧
      (∀ n, readBytes e.mem plaintext n = readBytes m plaintext n) := by
  have hrun := decrypt_run P c key m data tag input input_length ciphertext
    ciphertext_length plaintext max_plaintext_length hm hlen hdata htag
  have hne1 : tag ≠ (P._olm_crypto_hmac_sha256 (derive_keys P c.kdf_info key).keys.mac_key
      data).take MAC_LENGTH := hne
  rw [if_neg hne1] at hrun
  refine ⟨_, hrun, rfl, rfl, ?_, rfl, fun _ => rfl⟩
  intro k iv a n o hmem
  simp at hmem

/-- C7 (as amended). Encrypt output layout: for every cipher configuration,
key and plaintext held in the memory, a call of `aes_sha_256_cipher_encrypt`
whose `ciphertext_length` is the required length and whose ciphertext region
lies inside the output buffer before its last 8 bytes returns
`output_length`; the ciphertext region then holds AES-256-CBC(`aes_key`,
`aes_iv`, plaintext); and the last 8 bytes of the output are the first 8 bytes
of HMAC-SHA256, keyed with the 32-byte `mac_key`, of the first
`output_length - 8` bytes of the output buffer as they are once the ciphertext
has been written (`data`): the ciphertext is part of `data` at its offset, and
`data` is the ciphertext alone when the ciphertext region starts the output
and `output_length = ciphertext_length + 8`. -/
theorem encrypt_output_layout (P : Primitives) (c : _olm_cipher_aes_sha_256)
    (key : List Byte) (m : Mem) (p : List Byte)
    (plaintext plaintext_length ciphertext ciphertext_length output output_length : Nat)
    (hm : m.length < SIZE_T_RANGE)
    (hp : readBytes m plaintext plaintext_length = some p)
    (hct : ciphertext_length
      = aes_sha_256_cipher_encrypt_ciphertext_length P plaintext_length)
    (hlo : output ≤ ciphertext)
    (hhi : ciphertext + ciphertext_length + 8 ≤ output + output_length)
    (hout : output + output_length ≤ m.length) :
    ∃ e data,
      aes_sha_256_cipher_encrypt P c key m plaintext plaintext_length ciphertext
          ciphertext_length output output_length = Outcome.exit e ∧
      e.ret = output_length ∧
      readBytes e.mem ciphertext ciphertext_length
        = some (P.aes_encrypt_cbc (derive_keys P c.kdf_info key).keys.aes_key
            (derive_keys P c.kdf_info key).keys.aes_iv p) ∧
      readBytes e.mem output (output_length - 8) = some data ∧
      readBytes e.mem (output + (output_length - 8)) 8
        = some ((P._olm_crypto_hmac_sha256 (derive_keys P c.kdf_info key).keys.mac_key
            data).take 8) ∧
      (derive_keys P c.kdf_info key).keys.mac_key.length = 32 ∧
      readBytes data (ciphertext - output) ciphertext_length
        = some (P.aes_encrypt_cbc (derive_keys P c.kdf_info key).keys.aes_key
            (derive_keys P c.kdf_info key).keys.aes_iv p) ∧
      (ciphertext = output → output_length = ciphertext_length + 8 →
        data = P.aes_encrypt_cbc (derive_keys P c.kdf_info key).keys.aes_key
            (derive_keys P c.kdf_info key).keys.aes_iv p) ∧
      e.trace =
        [Call._olm_crypto_hkdf_sha256 key [] c.kdf_info 80,
         Call.aes_encrypt_cbc (derive_keys P c.kdf_info key).keys.aes_key
           (derive_keys P c.kdf_info key).keys.aes_iv plaintext plaintext_length ciphertext,
         Call._olm_crypto_hmac_sha256 (derive_keys P c.kdf_info key).keys.mac_key
           output (output_length - 8)] := by
  unfold aes_sha_256_cipher_encrypt_ciphertext_length at hct
  have hmac8 : MAC_LENGTH = 8 := rfl
  have hpl := (readBytes_length _ _ _ _ hp).1
  generalize hks : (derive_keys P c.kdf_info key).keys = ks at *
  have hctl := P.aes_encrypt_cbc_size ks.aes_key ks.aes_iv p
  rw [hpl, ← hct] at hctl
  generalize hcte : P.aes_encrypt_cbc ks.aes_key ks.aes_iv p = ct at *
  obtain ⟨m1, hw⟩ : ∃ m1, writeBytes m ciphertext ct = some m1 :=
    ⟨_, writeBytes_of_le m ciphertext ct (by omega)⟩
  have hl1 := writeBytes_length _ _ _ _ hw
  obtain ⟨data, m2, hdata, hw2, henc⟩ := encrypt_run P c key m m1 p plaintext
    plaintext_length ciphertext ciphertext_length output output_length hm
    (by rw [hct]; omega) hp (by rw [hks, hcte]; exact hw) (by omega) hout
  rw [hks] at hw2 henc
  rw [hmac8] at hdata hw2 henc
  have hl2 := writeBytes_length _ _ _ _ hw2
  have hsame := readBytes_writeBytes_same _ _ _ _ hw
  rw [hctl] at hsame
  have hdl := (readBytes_length _ _ _ _ hdata).1
  have hsub : readBytes data (ciphertext - output) ciphertext_length = some ct := by
    rw [← hsame]
    have hd := hdata
    rw [readBytes_of_le _ _ _ (by omega)] at hd
    cases hd
    rw [readBytes_of_le _ _ _ (by simp; omega), readBytes_of_le _ _ _ (by omega)]
    congr 1
    apply List.ext_getElem
    · simp; omega
    · intro i h1 h2
      simp at h1 h2
      simp [List.getElem_take, List.getElem_drop]
      congr 1
      omega
  refine ⟨_, data, henc, rfl, ?_, ?_, ?_, ?_, hsub, ?_, rfl⟩
  · show readBytes m2 ciphertext ciphertext_length = some ct
    rw [readBytes_writeBytes_before _ _ _ _ _ _ hw2 (by omega), hsame]
  · show readBytes m2 output (output_length - 8) = some data
    rw [readBytes_writeBytes_before _ _ _ _ _ _ hw2 (le_refl _), hdata]
  · show readBytes m2 (output + (output_length - 8)) 8 = _
    have := readBytes_writeBytes_same _ _ _ _ hw2
    rw [← hmac8] at this
    rw [hmac_take_length] at this
    rw [hmac8] at this
    exact this
  · rw [← hks]
    exact derive_keys_mac_key_length P c.kdf_info key
  · intro h1 h2
    subst h1
    have h3 : output_length - 8 = ciphertext_length := by omega
    rw [h3, hsame] at hdata
    cases hdata
    rfl

/-- C9. Key erasure: `derive_keys` leaves its 80-byte `derived_secrets` buffer
all zero; every return of `aes_sha_256_cipher_encrypt` is either the size
check's early return, before `derive_keys` has run (no primitive call made,
`keys` not yet filled), or is reached after the HKDF call with every byte of
`keys` (`aes_key`, `mac_key`, `aes_iv`) zero; and every return of
`aes_sha_256_cipher_decrypt`, the MAC mismatch included, is reached after the
HKDF call with every byte of `keys` zero. -/
theorem derived_keys_erased (P : Primitives) (c : _olm_cipher_aes_sha_256)
    (key : List Byte) (m : Mem) :
    (derive_keys P c.kdf_info key).derived_secrets = List.replicate 80 0 ∧
    (∀ plaintext plaintext_length ciphertext ciphertext_length output output_length e,
      aes_sha_256_cipher_encrypt P c key m plaintext plaintext_length ciphertext
        ciphertext_length output output_length = Outcome.exit e →
      (e.trace = [] ∧ e.keys = none ∧ e.ret = SIZE_T_MINUS_ONE) ∨
      (Call._olm_crypto_hkdf_sha256 key [] c.kdf_info 80 ∈ e.trace ∧
        e.keys = some
          { aes_key := List.replicate 32 0
            mac_key := List.replicate 32 0
            aes_iv := List.replicate 16 0 })) ∧
    (∀ input input_length ciphertext ciphertext_length plaintext max_plaintext_length e,
      aes_sha_256_cipher_decrypt P c key m input input_length ciphertext
        ciphertext_length plaintext max_plaintext_length = Outcome.exit e →
      Call._olm_crypto_hkdf_sha256 key [] c.kdf_info 80 ∈ e.trace ∧
        e.keys = some
          { aes_key := List.replicate 32 0
            mac_key := List.replicate 32 0
            aes_iv := List.replicate 16 0 }) := by
  refine ⟨?_, ?_, ?_⟩
  · simp [derive_keys, olm.unset, P.hkdf_length, KEY_LENGTH, IV_LENGTH]
  · intro _ _ _ _ _ _ e h
    unfold aes_sha_256_cipher_encrypt at h
    split at h
    · cases h
      exact Or.inl ⟨rfl, rfl, rfl⟩
    · right
      dsimp only at h
      rw [derive_keys_trace] at h
      split at h
      · cases h
      · split at h
        · cases h
        · split at h
          · cases h
          · split at h
            · cases h
            · cases h
              exact ⟨by simp, rfl⟩
  · intro _ _ _ _ _ _ e h
    unfold aes_sha_256_cipher_decrypt at h
    dsimp only at h
    rw [derive_keys_trace] at h
    split at h
    · cases h
    · split at h
      · cases h
      · split at h
        · cases h
          exact ⟨by simp, rfl⟩
        · split at h
          · cases h
          · split at h
            · cases h
            · cases h
              exact ⟨by simp, rfl⟩

/-- C7 (counterexample). With one byte of the output buffer in front of the
ciphertext region (`output = 16`, `ciphertext = 17`, `ciphertext_length = 16`,
`output_length = 25`) the call passes the size check and returns
`output_length`, the ciphertext region holds the encrypted plaintext, and the
last 8 bytes of the output are not the first 8 bytes of the HMAC of that
ciphertext: the HMAC call was made on the 17 bytes from `output` on. -/
theorem encrypt_mac_is_not_over_ciphertext_region :
    ∃ e ct,
      aes_sha_256_cipher_encrypt samplePrimitives sampleCipher sampleKey sampleMem
          0 3 17 16 16 25 = Outcome.exit e ∧
      ¬ (aes_sha_256_cipher_encrypt_ciphertext_length samplePrimitives 3 < 16) ∧
      e.ret = 25 ∧
      ct = samplePrimitives.aes_encrypt_cbc
          (derive_keys samplePrimitives sampleCipher.kdf_info sampleKey).keys.aes_key
          (derive_keys samplePrimitives sampleCipher.kdf_info sampleKey).keys.aes_iv
          [97, 98, 99] ∧
      readBytes e.mem 17 16 = some ct ∧
      readBytes e.mem 33 8 ≠
        some ((samplePrimitives._olm_crypto_hmac_sha256
          (derive_keys samplePrimitives sampleCipher.kdf_info sampleKey).keys.mac_key
          ct).take 8) ∧
      e.trace.getLast? = some (Call._olm_crypto_hmac_sha256
          (derive_keys samplePrimitives sampleCipher.kdf_info sampleKey).keys.mac_key
          16 17) := by
  refine ⟨_, _, rfl, ?_, ?_, rfl, ?_, ?_, ?_⟩ <;> decide

/-- C4 (the code at the failing inputs). For a 3-byte plaintext the required
ciphertext length is 16.  With `ciphertext_length = 0`, smaller than required,
the call does not return `size_t(-1)`: it returns `output_length = 24` and has
written the 16 ciphertext bytes.  With `ciphertext_length = 32`, larger than
required, it returns `size_t(-1)` and writes nothing. -/
theorem encrypt_size_check_is_inverted :
    aes_sha_256_cipher_encrypt_ciphertext_length samplePrimitives 3 = 16 ∧
    (∃ e,
      aes_sha_256_cipher_encrypt samplePrimitives sampleCipher sampleKey sampleMem
          0 3 16 0 16 24 = Outcome.exit e ∧
      e.ret = 24 ∧ e.ret ≠ SIZE_T_MINUS_ONE ∧
      readBytes sampleMem 16 16 = some (List.replicate 16 170) ∧
      readBytes e.mem 16 16 = some (samplePrimitives.aes_encrypt_cbc
          (derive_keys samplePrimitives sampleCipher.kdf_info sampleKey).keys.aes_key
          (derive_keys samplePrimitives sampleCipher.kdf_info sampleKey).keys.aes_iv
          [97, 98, 99])) ∧
    aes_sha_256_cipher_encrypt samplePrimitives sampleCipher sampleKey sampleMem
        0 3 16 32 16 40 =
      Outcome.exit { ret := SIZE_T_MINUS_ONE, mem := sampleMem, keys := none, trace := [] } := by
  refine ⟨by decide, ⟨_, rfl, ?_, ?_, ?_, ?_⟩, by decide⟩ <;> decide

/-- C5 (the code at the failing inputs). On an input of 3 bytes, and on the
empty input, `aes_sha_256_cipher_decrypt` does not return `size_t(-1)`: it
first runs the HKDF of `derive_keys`, then calls the HMAC with the length
`input_length - 8` wrapped around to `2 ^ 64 - 5` (to `2 ^ 64 - 8` for the
empty input), which reads far outside the input. -/
theorem decrypt_short_input_wraps_around :
    aes_sha_256_cipher_decrypt samplePrimitives sampleCipher sampleKey sampleMem
        16 3 16 0 40 16 =
      Outcome.fault
        [Call._olm_crypto_hkdf_sha256 sampleKey [] sampleCipher.kdf_info 80,
         Call._olm_crypto_hmac_sha256
           (derive_keys samplePrimitives sampleCipher.kdf_info sampleKey).keys.mac_key
           16 18446744073709551611] ∧
    aes_sha_256_cipher_decrypt samplePrimitives sampleCipher sampleKey sampleMem
        16 0 16 0 40 16 =
      Outcome.fault
        [Call._olm_crypto_hkdf_sha256 sampleKey [] sampleCipher.kdf_info 80,
         Call._olm_crypto_hmac_sha256
           (derive_keys samplePrimitives sampleCipher.kdf_info sampleKey).keys.mac_key
           16 18446744073709551608] := by
  constructor <;> decide

/-- C8 (the code at the failing input). The query
`aes_sha_256_cipher_decrypt_max_plaintext_length n` is `n`; but decrypting the
authenticated output of an encryption (ciphertext length 16) with
`max_plaintext_length = 0` does not return `size_t(-1)`: the call writes the
16 decrypted bytes to the plaintext buffer and returns the length 3. -/
theorem decrypt_ignores_max_plaintext_length :
    (∀ n, aes_sha_256_cipher_decrypt_max_plaintext_length n = n) ∧
    ∃ e1 e2,
      aes_sha_256_cipher_encrypt samplePrimitives sampleCipher sampleKey sampleMem
          0 3 16 16 16 24 = Outcome.exit e1 ∧
      aes_sha_256_cipher_decrypt samplePrimitives sampleCipher sampleKey e1.mem
          16 24 16 16 40 0 = Outcome.exit e2 ∧
      e2.ret = 3 ∧ e2.ret ≠ SIZE_T_MINUS_ONE ∧
      readBytes e1.mem 40 16 = some (List.replicate 16 170) ∧
      readBytes e2.mem 40 16 =
        some [97, 98, 99, 13, 13, 13, 13, 13, 13, 13, 13, 13, 13, 13, 13, 13] := by
  refine ⟨fun _ => rfl, _, _, rfl, rfl, ?_, ?_, ?_, ?_⟩ <;> decide

/-! ## The size checks, for every instance of the primitives -/

/-- The size check of `aes_sha_256_cipher_encrypt` rejects exactly the calls
whose `ciphertext_length` is larger than the required length, and a rejected
call makes no primitive call and leaves the memory as it was. -/
theorem encrypt_rejects_iff (P : Primitives) (c : _olm_cipher_aes_sha_256)
    (key : List Byte) (m : Mem)
    (plaintext plaintext_length ciphertext ciphertext_length output output_length : Nat) :
    aes_sha_256_cipher_encrypt P c key m plaintext plaintext_length ciphertext
        ciphertext_length output output_length =
      Outcome.exit { ret := SIZE_T_MINUS_ONE, mem := m, keys := none, trace := [] } ↔
    aes_sha_256_cipher_encrypt_ciphertext_length P plaintext_length < ciphertext_length := by
  constructor
  · intro h
    by_contra hn
    have h2 := (cipher_returns_follow_hkdf P c key m plaintext plaintext_length ciphertext
      ciphertext_length output output_length).1 _ h
    rcases h2 with h3 | h3
    · exact hn h3
    · simp at h3
  · intro h
    unfold aes_sha_256_cipher_encrypt
    rw [if_pos h]

/-- On an input shorter than the tag, in a memory smaller than `2 ^ 64 - 8`
bytes, `aes_sha_256_cipher_decrypt` runs the HKDF and then calls the HMAC with
the wrapped-around length `input_length + (2 ^ 64 - 8)`, which leaves the
memory. -/
theorem decrypt_short_input_faults (P : Primitives) (c : _olm_cipher_aes_sha_256)
    (key : List Byte) (m : Mem)
    (input input_length ciphertext ciphertext_length plaintext max_plaintext_length : Nat)
    (hshort : input_length < 8)
    (hm : m.length < 18446744073709551608) :
    aes_sha_256_cipher_decrypt P c key m input input_length ciphertext ciphertext_length
        plaintext max_plaintext_length =
      Outcome.fault
        [Call._olm_crypto_hkdf_sha256 key [] c.kdf_info 80,
         Call._olm_crypto_hmac_sha256 (derive_keys P c.kdf_info key).keys.mac_key
           input (input_length + 18446744073709551608)] := by
  have hsub : size_sub input_length MAC_LENGTH = input_length + 18446744073709551608 :=
    size_sub_wraps _ _ hshort
  unfold aes_sha_256_cipher_decrypt
  rw [hsub]
  dsimp only
  rw [readBytes_none_of_lt _ _ _ (by omega), derive_keys_trace]
  rfl

/-- The result of `aes_sha_256_cipher_decrypt` does not depend on
`max_plaintext_length`. -/
theorem decrypt_max_plaintext_length_unused (P : Primitives)
    (c : _olm_cipher_aes_sha_256) (key : List Byte) (m : Mem)
    (input input_length ciphertext ciphertext_length plaintext a b : Nat) :
    aes_sha_256_cipher_decrypt P c key m input input_length ciphertext ciphertext_length
        plaintext a =
      aes_sha_256_cipher_decrypt P c key m input input_length ciphertext ciphertext_length
        plaintext b := rfl

/-! ## Tampering with an authenticated input -/

theorem xor_two_pow_ne (b i : Nat) : b ^^^ 2 ^ i ≠ b := by
  intro h
  have h1 : b ^^^ 2 ^ i = b ^^^ 0 := by rw [h, Nat.xor_zero]
  have h2 := Nat.xor_right_injective h1
  exact absurd h2 (by positivity)

theorem flipBit_length (m : Mem) (addr bit : Nat) : (flipBit m addr bit).length = m.length := by
  simp [flipBit]

/-- Flipping a bit outside a region leaves what is read from the region. -/
theorem readBytes_flipBit_outside (m : Mem) (addr bit p n : Nat)
    (h : addr < p ∨ p + n ≤ addr) :
    readBytes (flipBit m addr bit) p n = readBytes m p n := by
  by_cases hb : p + n ≤ m.length
  · rw [readBytes_of_le _ _ _ (by rw [flipBit_length]; exact hb), readBytes_of_le _ _ _ hb]
    congr 1
    apply List.ext_getElem
    · simp [flipBit]
    · intro i h1 h2
      simp at h1 h2
      simp only [flipBit, List.getElem_take, List.getElem_drop, List.getElem_set]
      rw [if_neg (by omega)]
  · rw [readBytes_none_of_lt _ _ _ (by rw [flipBit_length]; omega),
      readBytes_none_of_lt _ _ _ (by omega)]

/-- Flipping a bit inside a region changes what is read from the region. -/
theorem readBytes_flipBit_inside (m : Mem) (addr bit p n : Nat) (d : List Byte)
    (hd : readBytes m p n = some d) (h1 : p ≤ addr) (h2 : addr < p + n) :
    ∃ d1, readBytes (flipBit m addr bit) p n = some d1 ∧ d1 ≠ d := by
  have hb := (readBytes_length _ _ _ _ hd).2
  rw [readBytes_of_le _ _ _ hb] at hd
  cases hd
  refine ⟨_, readBytes_of_le _ _ _ (by rw [flipBit_length]; exact hb), ?_⟩
  intro heq
  have hi : addr - p < (List.take n (List.drop p (flipBit m addr bit))).length := by
    simp [flipBit]; omega
  have hi2 : addr - p < (List.take n (List.drop p m)).length := by
    simp; omega
  have hget : (List.take n (List.drop p (flipBit m addr bit)))[addr - p]
      = (List.take n (List.drop p m))[addr - p] := by
    simp only [heq]
  simp only [flipBit, List.getElem_take, List.getElem_drop, List.getElem_set] at hget
  rw [if_pos (by omega)] at hget
  have haddr : addr < m.length := by omega
  have h3 : p + (addr - p) = addr := by omega
  simp only [h3] at hget
  rw [List.getD_eq_getElem _ _ haddr] at hget
  exact xor_two_pow_ne _ _ hget

/-- Supporting C3, the tag half: on an authenticated input (the last 8 bytes
are the first 8 bytes of the HMAC of the bytes before them), flipping any bit
of any of the 8 tag bytes makes `aes_sha_256_cipher_decrypt` return
`size_t(-1)` without calling the AES-CBC decrypt primitive and without writing
to the memory. -/
theorem decrypt_rejects_flipped_tag_bit (P : Primitives) (c : _olm_cipher_aes_sha_256)
    (key : List Byte) (m : Mem) (data : List Byte)
    (input input_length ciphertext ciphertext_length plaintext max_plaintext_length : Nat)
    (j bit : Nat)
    (hm : m.length < SIZE_T_RANGE)
    (hlen : 8 ≤ input_length)
    (hdata : readBytes m input (input_length - 8) = some data)
    (htag : readBytes m (input + (input_length - 8)) 8
      = some ((P._olm_crypto_hmac_sha256 (derive_keys P c.kdf_info key).keys.mac_key
          data).take 8))
    (hj : j < 8) :
    aes_sha_256_cipher_decrypt P c key (flipBit m (input + (input_length - 8) + j) bit)
        input input_length ciphertext ciphertext_length plaintext max_plaintext_length =
      Outcome.exit
        { ret := SIZE_T_MINUS_ONE
          mem := flipBit m (input + (input_length - 8) + j) bit
          keys := some unset_keys
          trace :=
            [Call._olm_crypto_hkdf_sha256 key [] c.kdf_info 80,
             Call._olm_crypto_hmac_sha256 (derive_keys P c.kdf_info key).keys.mac_key
               input (input_length - 8)] } := by
  have hd2 : readBytes (flipBit m (input + (input_length - 8) + j) bit) input
      (input_length - 8) = some data := by
    rw [readBytes_flipBit_outside _ _ _ _ _ (Or.inr (by omega)), hdata]
  obtain ⟨tag1, ht1, hne⟩ := readBytes_flipBit_inside m (input + (input_length - 8) + j) bit
    _ _ _ htag (by omega) (by omega)
  have hrun := decrypt_run P c key _ data tag1 input input_length ciphertext
    ciphertext_length plaintext max_plaintext_length
    (by rw [flipBit_length]; exact hm) hlen hd2 ht1
  have hne1 : tag1 ≠ (P._olm_crypto_hmac_sha256 (derive_keys P c.kdf_info key).keys.mac_key
      data).take MAC_LENGTH := hne
  rw [if_neg hne1] at hrun
  exact hrun

/-- Supporting C3, the ciphertext half: on an authenticated input, flipping a
bit of a byte before the tag makes `aes_sha_256_cipher_decrypt` return
`size_t(-1)`, without calling the AES-CBC decrypt primitive and without writing
to the memory, whenever the first 8 bytes of the HMAC of the tampered bytes
differ from the first 8 bytes of the HMAC of the original ones. -/
theorem decrypt_rejects_flipped_ciphertext_bit (P : Primitives)
    (c : _olm_cipher_aes_sha_256) (key : List Byte) (m : Mem) (data : List Byte)
    (input input_length ciphertext ciphertext_length plaintext max_plaintext_length : Nat)
    (k bit : Nat)
    (hm : m.length < SIZE_T_RANGE)
    (hlen : 8 ≤ input_length)
    (hdata : readBytes m input (input_length - 8) = some data)
    (htag : readBytes m (input + (input_length - 8)) 8
      = some ((P._olm_crypto_hmac_sha256 (derive_keys P c.kdf_info key).keys.mac_key
          data).take 8))
    (hk : k < input_length - 8)
    (hmacs : ∀ data1, readBytes (flipBit m (input + k) bit) input (input_length - 8)
        = some data1 → data1 ≠ data →
      (P._olm_crypto_hmac_sha256 (derive_keys P c.kdf_info key).keys.mac_key data1).take 8
        ≠ (P._olm_crypto_hmac_sha256 (derive_keys P c.kdf_info key).keys.mac_key
          data).take 8) :
    aes_sha_256_cipher_decrypt P c key (flipBit m (input + k) bit)
        input input_length ciphertext ciphertext_length plaintext max_plaintext_length =
      Outcome.exit
        { ret := SIZE_T_MINUS_ONE
          mem := flipBit m (input + k) bit
          keys := some unset_keys
          trace :=
            [Call._olm_crypto_hkdf_sha256 key [] c.kdf_info 80,
             Call._olm_crypto_hmac_sha256 (derive_keys P c.kdf_info key).keys.mac_key
               input (input_length - 8)] } := by
  obtain ⟨data1, hd1, hne⟩ := readBytes_flipBit_inside m (input + k) bit
    _ _ _ hdata (by omega) (by omega)
  have ht2 : readBytes (flipBit m (input + k) bit) (input + (input_length - 8)) 8
      = some ((P._olm_crypto_hmac_sha256 (derive_keys P c.kdf_info key).keys.mac_key
          data).take 8) := by
    rw [readBytes_flipBit_outside _ _ _ _ _ (Or.inl (by omega)), htag]
  have hrun := decrypt_run P c key _ data1 _ input input_length ciphertext
    ciphertext_length plaintext max_plaintext_length
    (by rw [flipBit_length]; exact hm) hlen hd1 ht2
  have hne1 : (P._olm_crypto_hmac_sha256 (derive_keys P c.kdf_info key).keys.mac_key
      data).take 8 ≠ (P._olm_crypto_hmac_sha256
        (derive_keys P c.kdf_info key).keys.mac_key data1).take MAC_LENGTH :=
    fun h => hmacs data1 hd1 hne h.symm
  rw [if_neg hne1] at hrun
  exact hrun

/-! ## Witnesses on the sample run -/

/-- The round trip of C1 on the sample run: the 3-byte plaintext at address 0
is encrypted into the 24 bytes at address 16 and decrypted into the buffer at
address 40. -/
theorem cipher_round_trip_witness :
    ∃ e1 e2,
      aes_sha_256_cipher_encrypt samplePrimitives sampleCipher sampleKey sampleMem
          0 3 16 16 16 24 = Outcome.exit e1 ∧
      e1.ret = 24 ∧
      aes_sha_256_cipher_decrypt samplePrimitives sampleCipher sampleKey e1.mem
          16 24 16 16 40 16 = Outcome.exit e2 ∧
      e2.ret ≠ SIZE_T_MINUS_ONE ∧
      e2.ret = 3 ∧
      readBytes e2.mem 40 3 = some [97, 98, 99] :=
  cipher_round_trip samplePrimitives sampleCipher sampleKey sampleMem [97, 98, 99] 0 16 40
    (by decide) (by decide) (by decide) (by decide) (by decide) (by decide) (by decide)

/-- The rejection of C2 on the sample run: the 24 bytes at address 16 of the
sample memory all hold `0xAA`, which is not the tag of their first 16 bytes. -/
theorem decrypt_rejects_bad_mac_witness :
    ∃ e,
      aes_sha_256_cipher_decrypt samplePrimitives sampleCipher sampleKey sampleMem
          16 24 16 16 40 16 = Outcome.exit e ∧
      e.ret = SIZE_T_MINUS_ONE ∧
      e.trace =
        [Call._olm_crypto_hkdf_sha256 sampleKey [] sampleCipher.kdf_info 80,
         Call._olm_crypto_hmac_sha256
           (derive_keys samplePrimitives sampleCipher.kdf_info sampleKey).keys.mac_key
           16 (24 - 8)] ∧
      (∀ k iv a n o, Call.aes_decrypt_cbc k iv a n o ∉ e.trace) ∧
      e.mem = sampleMem ∧
      (∀ n, readBytes e.mem 40 n = readBytes sampleMem 40 n) :=
  decrypt_rejects_bad_mac samplePrimitives sampleCipher sampleKey sampleMem
    (List.replicate 16 170) (List.replicate 8 170) 16 24 16 16 40 16
    (by decide) (by decide) (by decide) (by decide) (by decide)

/-- The layout of C7 on a sample run with one byte of the output buffer in
front of the ciphertext region. -/
theorem encrypt_output_layout_witness :
    ∃ e data,
      aes_sha_256_cipher_encrypt samplePrimitives sampleCipher sampleKey sampleMem
          0 3 17 16 16 25 = Outcome.exit e ∧
      e.ret = 25 ∧
      readBytes e.mem 17 16
        = some (samplePrimitives.aes_encrypt_cbc
            (derive_keys samplePrimitives sampleCipher.kdf_info sampleKey).keys.aes_key
            (derive_keys samplePrimitives sampleCipher.kdf_info sampleKey).keys.aes_iv
            [97, 98, 99]) ∧
      readBytes e.mem 16 (25 - 8) = some data ∧
      readBytes e.mem (16 + (25 - 8)) 8
        = some ((samplePrimitives._olm_crypto_hmac_sha256
            (derive_keys samplePrimitives sampleCipher.kdf_info sampleKey).keys.mac_key
            data).take 8) ∧
      (derive_keys samplePrimitives sampleCipher.kdf_info sampleKey).keys.mac_key.length
        = 32 ∧
      readBytes data (17 - 16) 16
        = some (samplePrimitives.aes_encrypt_cbc
            (derive_keys samplePrimitives sampleCipher.kdf_info sampleKey).keys.aes_key
            (derive_keys samplePrimitives sampleCipher.kdf_info sampleKey).keys.aes_iv
            [97, 98, 99]) ∧
      (17 = 16 → 25 = 16 + 8 →
        data = samplePrimitives.aes_encrypt_cbc
            (derive_keys samplePrimitives sampleCipher.kdf_info sampleKey).keys.aes_key
            (derive_keys samplePrimitives sampleCipher.kdf_info sampleKey).keys.aes_iv
            [97, 98, 99]) ∧
      e.trace =
        [Call._olm_crypto_hkdf_sha256 sampleKey [] sampleCipher.kdf_info 80,
         Call.aes_encrypt_cbc
           (derive_keys samplePrimitives sampleCipher.kdf_info sampleKey).keys.aes_key
           (derive_keys samplePrimitives sampleCipher.kdf_info sampleKey).keys.aes_iv 0 3 17,
         Call._olm_crypto_hmac_sha256
           (derive_keys samplePrimitives sampleCipher.kdf_info sampleKey).keys.mac_key
           16 (25 - 8)] :=
  encrypt_output_layout samplePrimitives sampleCipher sampleKey sampleMem [97, 98, 99]
    0 3 17 16 16 25 (by decide) (by decide) (by decide) (by decide) (by decide) (by decide)

/-- The erasure of C9 on the sample run, at the returns that the sample
encryption and the rejected sample decryption reach. -/
theorem derived_keys_erased_witness :
    (derive_keys samplePrimitives sampleCipher.kdf_info sampleKey).derived_secrets
      = List.replicate 80 0 ∧
    (∃ e, aes_sha_256_cipher_encrypt samplePrimitives sampleCipher sampleKey sampleMem
        0 3 16 16 16 24 = Outcome.exit e ∧ e.keys = some unset_keys) ∧
    (∃ e, aes_sha_256_cipher_decrypt samplePrimitives sampleCipher sampleKey sampleMem
        16 24 16 16 40 16 = Outcome.exit e ∧ e.keys = some unset_keys) :=
  ⟨(derived_keys_erased samplePrimitives sampleCipher sampleKey sampleMem).1,
   ⟨_, rfl, ((derived_keys_erased samplePrimitives sampleCipher sampleKey sampleMem).2.1
      0 3 16 16 16 24 _ rfl).elim (fun h => absurd h.1 (by decide)) (fun h => h.2)⟩,
   ⟨_, rfl, ((derived_keys_erased samplePrimitives sampleCipher sampleKey sampleMem).2.2
      16 24 16 16 40 16 _ rfl).2⟩⟩

/-! ## The SAS calling contract

The bodies of the SAS functions are not among the sources, and what
`last_error` holds after a `calculate_mac` call on an object without a peer
key and with a too-small `mac` buffer depends on the order of the two failure
checks, which neither the spec nor `sas.h` fixes.  What follows holds in both
orders. -/

/-- Supporting C10.  On every SAS object on which no peer key has been set, and
whichever of the two failure checks comes first: `olm_sas_generate_bytes`
returns `olm_error()`, writes no output and latches `SAS_THEIR_KEY_NOT_SET`,
whatever `info` and `output_length`; each of `olm_sas_calculate_mac`,
`olm_sas_calculate_mac_fixed_base64` and `olm_sas_calculate_mac_long_kdf`
returns `olm_error()`, writes no output and changes nothing of the object but
`last_error`, which becomes `SAS_THEIR_KEY_NOT_SET` or, only when `mac_length`
is smaller than `olm_sas_mac_length()`, `OUTPUT_BUFFER_TOO_SMALL`. -/
theorem sas_no_output_without_their_key (P : Primitives) (S : SasParameters)
    (sas : OlmSAS) (input info : List Byte) (output_length mac_length : Nat)
    (h : sas.their_public_key = none) :
    olm_sas_generate_bytes P sas info output_length =
      { ret := olm_error
        sas := { sas with last_error := OlmErrorCode.OLM_SAS_THEIR_KEY_NOT_SET }
        output := none } ∧
    ∀ f ∈ [olm_sas_calculate_mac P S sas input info mac_length,
        olm_sas_calculate_mac_fixed_base64 P S sas input info mac_length,
        olm_sas_calculate_mac_long_kdf P S sas input info mac_length],
      f.ret = olm_error ∧ f.output = none ∧
      f.sas = { sas with last_error := f.sas.last_error } ∧
      (f.sas.last_error = OlmErrorCode.OLM_SAS_THEIR_KEY_NOT_SET ∨
        (f.sas.last_error = OlmErrorCode.OLM_OUTPUT_BUFFER_TOO_SMALL ∧
          mac_length < S.olm_sas_mac_length)) ∧
      (S.olm_sas_mac_length ≤ mac_length →
        f.sas.last_error = OlmErrorCode.OLM_SAS_THEIR_KEY_NOT_SET) := by
  have key : ∀ kdf_length encode,
      (sas_calculate_mac P S kdf_length encode sas input info mac_length).ret = olm_error ∧
      (sas_calculate_mac P S kdf_length encode sas input info mac_length).output = none ∧
      (sas_calculate_mac P S kdf_length encode sas input info mac_length).sas
        = { sas with last_error :=
            (sas_calculate_mac P S kdf_length encode sas input info mac_length).sas.last_error } ∧
      ((sas_calculate_mac P S kdf_length encode sas input info mac_length).sas.last_error
          = OlmErrorCode.OLM_SAS_THEIR_KEY_NOT_SET ∨
        ((sas_calculate_mac P S kdf_length encode sas input info mac_length).sas.last_error
            = OlmErrorCode.OLM_OUTPUT_BUFFER_TOO_SMALL ∧
          mac_length < S.olm_sas_mac_length)) ∧
      (S.olm_sas_mac_length ≤ mac_length →
        (sas_calculate_mac P S kdf_length encode sas input info mac_length).sas.last_error
          = OlmErrorCode.OLM_SAS_THEIR_KEY_NOT_SET) := by
    intro kdf_length encode
    unfold sas_calculate_mac
    rw [h]
    dsimp only
    cases S.buffer_check_first
    · exact ⟨rfl, rfl, rfl, Or.inl rfl, fun _ => rfl⟩
    · by_cases hlt : mac_length < S.olm_sas_mac_length
      · rw [if_pos rfl, if_pos hlt]
        exact ⟨rfl, rfl, rfl, Or.inr ⟨rfl, hlt⟩, fun hle => absurd hlt (by omega)⟩
      · rw [if_pos rfl, if_neg hlt]
        exact ⟨rfl, rfl, rfl, Or.inl rfl, fun _ => rfl⟩
  constructor
  · unfold olm_sas_generate_bytes
    rw [h]
  · intro f hf
    simp only [List.mem_cons, List.mem_singleton, List.not_mem_nil, or_false] at hf
    rcases hf with rfl | rfl | rfl
    · exact key _ _
    · exact key _ _
    · exact key _ _

/-- Supporting C10.  On the sample SAS object, which has no peer key,
`olm_sas_calculate_mac` with a `mac` buffer of length 0 latches
`OUTPUT_BUFFER_TOO_SMALL` when the buffer check comes first and
`SAS_THEIR_KEY_NOT_SET` when the peer-key check comes first; in both orders it
returns `olm_error()` and writes nothing. -/
theorem sas_check_order_decides_latched_error :
    sampleSas.their_public_key = none ∧
    (olm_sas_calculate_mac samplePrimitives (sampleSasParameters true) sampleSas
      [1] [2] 0).sas.last_error = OlmErrorCode.OLM_OUTPUT_BUFFER_TOO_SMALL ∧
    (olm_sas_calculate_mac samplePrimitives (sampleSasParameters false) sampleSas
      [1] [2] 0).sas.last_error = OlmErrorCode.OLM_SAS_THEIR_KEY_NOT_SET ∧
    (olm_sas_calculate_mac samplePrimitives (sampleSasParameters true) sampleSas
      [1] [2] 0).ret = olm_error ∧
    (olm_sas_calculate_mac samplePrimitives (sampleSasParameters false) sampleSas
      [1] [2] 0).ret = olm_error ∧
    (olm_sas_calculate_mac samplePrimitives (sampleSasParameters true) sampleSas
      [1] [2] 0).output = none ∧
    (olm_sas_calculate_mac samplePrimitives (sampleSasParameters false) sampleSas
      [1] [2] 0).output = none := by
  decide
